import Mathlib

/-!
Shallow embedding of the hybrid retrieval and result-assembly engine of the
`ykanggit/chatbot` repository, covering:

* `libs/kotaemon/kotaemon/indices/vectorindex.py` — `VectorRetrieval._filter_docs`
  and `VectorRetrieval.run` (mode dispatch, hybrid merge, reranker invocation,
  top-k truncation, thumbnail assembly and its fallback);
* `libs/kotaemon/kotaemon/indices/rankings/llm.py` — `LLMReranking.run`.

Modelling conventions.  Python lists become `List`, dicts become
insertion-ordered association lists with Python-dict update semantics, Python
sets become insertion-ordered duplicate-free lists, and similarity scores are
carried opaquely (never computed with) so they are modelled by `Rat`.  All the
`print`/`logger` diagnostics blocks of `VectorRetrieval.run` are wrapped in
`try/except` (or are bare prints) and cannot affect the returned value; they
are omitted.  Store backends and the LLM relevance judgment are external
collaborators and appear as explicit function-valued parameters.  Fallible
code (the missing-docstore configuration error, the `KeyError` a dict lookup
can raise) returns `Except`.
-/

namespace Kotaemon

/-- Python `key in d` for a string-keyed dict modelled as an
insertion-ordered association list. -/
def alistHas (m : List (String × α)) (k : String) : Bool :=
  m.any (fun p => p.1 == k)

/-- Python `d.get(key)` / `d[key]` for a dict: the binding of `k`, if any.
Keys are unique in a Python dict, so the first binding is the binding. -/
def alistGet (m : List (String × α)) (k : String) : Option α :=
  (m.find? (fun p => p.1 == k)).map (fun p => p.2)

/-- Python `d[key] = v`: replace the existing binding in place (Python dicts
keep the original position of an updated key) or append a new one at the end. -/
def alistSet (m : List (String × α)) (k : String) (v : α) : List (String × α) :=
  if alistHas m k then
    m.map (fun p => if p.1 == k then (k, v) else p)
  else
    m ++ [(k, v)]

/-- Python `dict[str, str]` as an insertion-ordered association list.  The
repository only ever stores and compares string-valued metadata entries on the
claims' paths (`type`, `thumbnail_doc_id`, ...). -/
abbrev Metadata := List (String × String)

/-- Python `key in d` on a metadata dict. -/
def mhas (m : Metadata) (k : String) : Bool := alistHas m k

/-- Python `d.get(key)` / `d[key]` on a metadata dict. -/
def mget (m : Metadata) (k : String) : Option String := alistGet m k

/-- Python `d[key] = v` on a metadata dict. -/
def mset (m : Metadata) (k v : String) : Metadata := alistSet m k v

/-- The metadata-merge loop of the thumbnail synthesis in `VectorRetrieval.run`:
`for key in text_doc.metadata: if key not in doc_dict["metadata"]: ...` —
walk `extra` in insertion order, appending each binding whose key is absent
from the accumulated base dict. -/
def mergeAbsent (base : Metadata) : Metadata → Metadata
  | [] => base
  | p :: rest => mergeAbsent (if mhas base p.1 then base else base ++ [p]) rest

/-- `kotaemon.base.Document`: unique `doc_id`, content, metadata.  The class
itself lives in `kotaemon/base/schema.py` (not under `src/`); these are the
three fields the engine reads and copies (`to_dict` round-trips them). -/
structure Document where
  doc_id : String
  content : String
  metadata : Metadata
deriving Repr, DecidableEq

/-- `kotaemon.base.RetrievedDocument`: a `Document` plus a similarity `score`
(`-1` is the sentinel for "no similarity score"). -/
structure RetrievedDocument where
  doc_id : String
  content : String
  metadata : Metadata
  score : Rat
deriving Repr, DecidableEq

/-- `RetrievedDocument(**doc.to_dict(), score=score)`. -/
def mkRetrieved (d : Document) (score : Rat) : RetrievedDocument :=
  { doc_id := d.doc_id, content := d.content, metadata := d.metadata, score := score }

/-- Python slice `xs[:k]` for an `int` bound `k`: a non-negative bound keeps
the first `k` elements, a negative bound drops the last `|k|`. -/
def pyTake (k : Int) (xs : List α) : List α :=
  if 0 ≤ k then xs.take k.toNat else xs.take (xs.length - (-k).toNat)

/-- `VectorRetrieval._filter_docs` (vectorindex.py lines 133-138):

    if top_k:
        documents = documents[:top_k]
    return documents

`top_k` is falsy when it is `None` or `0`; only then is the slice skipped. -/
def filter_docs (documents : List RetrievedDocument) (top_k : Option Int) :
    List RetrievedDocument :=
  match top_k with
  | none => documents
  | some k => if k == 0 then documents else pyTake k documents

/-! ### LLMReranking (rankings/llm.py) -/

/-- Configuration fields of `LLMReranking` that influence `run`.  The LLM, the
prompt template and the boolean output parser together are the relevance
judgment; they enter `run` below as an oracle `judge : RetrievedDocument → Bool`
(a judgment the strict boolean parser failed to parse would raise, which is
outside the successful-judgment paths the claims quantify over). -/
structure LLMReranking where
  top_k : Int := 3
  concurrent : Bool := true
deriving Repr, DecidableEq

/-- The post-collection filter of `LLMReranking.run`:

    for include_doc, doc in zip(results, documents):
        if include_doc:
            filtered_docs.append(doc)
-/
def filterZip (results : List Bool) (documents : List RetrievedDocument) :
    List RetrievedDocument :=
  (results.zip documents).foldl
    (fun acc p => if p.1 then acc ++ [p.2] else acc) []

/-- `LLMReranking.run` (llm.py lines 31-76).  In the concurrent branch one
future per document is submitted in list order and `results` is collected by
`[future.result() for future in futures]`, i.e. in submission order; in the
sequential branch `results` is appended in the same order.  Both therefore
yield the judgment list positionally aligned with `documents`, which the
embedding writes as `documents.map judge` in each branch. -/
def LLMReranking.run (self : LLMReranking) (judge : RetrievedDocument → Bool)
    (documents : List RetrievedDocument) : List RetrievedDocument :=
  let results :=
    if self.concurrent then
      documents.map judge
    else
      documents.map judge
  let filtered_docs := filterZip results documents
  if filtered_docs.length == 0 then
    pyTake self.top_k documents
  else
    filtered_docs

/-! ### Store collaborators -/

/-- Document store contract consumed by the engine:
`get(ids) -> sequence of Document` (order need not match the request) and
`query(text, top_k, doc_ids) -> sequence of Document`. -/
structure DocStore where
  get : List String → List Document
  query : String → Int → List String → List Document

/-- Vector store contract: `query(embedding, top_k, doc_ids) ->
(payload, scores, ids)`.  The query embedding is computed once from the query
text and passed through unchanged, so the response is modelled as a function
of the requested `top_k` and scope only; the payload is never read. -/
structure VectorStore where
  query : Int → Option (List String) → List Rat × List String

/-! ### VectorRetrieval -/

/-- Configuration of `VectorRetrieval`.  Only the LLM-relevance reranker
variant is part of the reviewed source, so `rerankers` is a list of
`LLMReranking` configurations each paired with its judgment oracle (and the
`isinstance(reranker, LLMReranking)` test in `run` is true for each). -/
structure VectorRetrieval where
  vector_store : VectorStore
  doc_store : Option DocStore
  rerankers : List (LLMReranking × (RetrievedDocument → Bool)) := []
  top_k : Int := 5
  first_round_top_k_mult : Int := 10
  retrieval_mode : String := "hybrid"

/-- Python truthiness of the `scope` kwarg: `None` and `[]` are falsy. -/
def scopeTruthy : Option (List String) → Bool
  | none => false
  | some l => !l.isEmpty

/-- Membership test `doc not in vs_ids` of the hybrid merge (vectorindex.py
line 456) compares a full `Document` value from the text search against a
list of id *strings* from the vector search.  Modelled from the spec: the
`Document` class (`kotaemon.base`, not under `src/`) is a structured value
(a pydantic model) whose identity is its `doc_id`; equality between a
structured document value and a bare id string never holds, so each
elementwise comparison of this membership test is false. -/
def documentEqIdString (_d : Document) (_i : String) : Bool := false

/-- The mode dispatch of `VectorRetrieval.run` (vectorindex.py lines 318-463)
producing the pre-rerank candidate list.

* `vector` (lines 318-390): query the vector store, fetch the hit documents
  by id, and zip them with the scores.
* `text` (lines 391-398): query the document store over the scope when the
  scope is truthy, scoring every hit with the sentinel `-1.0`.
* `hybrid` (lines 399-463): both searches run on two spawned threads that are
  both joined before the merge, each writing a disjoint buffer (`vs_docs`,
  `vs_scores`, `vs_ids` vs `ds_docs`), so the join yields the same buffers as
  the two sequential calls modelled here; then merge text hits (filtered by
  the `doc not in vs_ids` test, scored `-1.0`) followed by the zipped vector
  hits.  `vs_docs` is fetched only when `vs_ids` is non-empty.

Any other mode leaves `result` at its initial `[]`. -/
def firstRound (self : VectorRetrieval) (dstore : DocStore) (text : String)
    (top_k_first_round : Int) (scope : Option (List String)) :
    List RetrievedDocument :=
  if self.retrieval_mode == "vector" then
    let qr := self.vector_store.query top_k_first_round scope
    let docs := dstore.get qr.2
    (docs.zip qr.1).map (fun p => mkRetrieved p.1 p.2)
  else if self.retrieval_mode == "text" then
    let docs :=
      if scopeTruthy scope then
        dstore.query text top_k_first_round (scope.getD [])
      else []
    docs.map (fun d => mkRetrieved d (-1))
  else if self.retrieval_mode == "hybrid" then
    let qr := self.vector_store.query top_k_first_round scope
    let vs_scores := qr.1
    let vs_ids := qr.2
    let vs_docs := if !vs_ids.isEmpty then dstore.get vs_ids else []
    let ds_docs :=
      if scopeTruthy scope then
        dstore.query text top_k_first_round (scope.getD [])
      else []
    (ds_docs.filter
        (fun d => !(vs_ids.any (fun i => documentEqIdString d i)))).map
        (fun d => mkRetrieved d (-1))
      ++ (vs_docs.zip vs_scores).map (fun p => mkRetrieved p.1 p.2)
  else []

/-- The reranker loop of `VectorRetrieval.run` (lines 465-471): each reranker
in sequence; every modelled reranker is the `LLMReranking` variant, so the
`isinstance` pre-truncation to `top_k` applies before each invocation. -/
def rerankStage (rerankers : List (LLMReranking × (RetrievedDocument → Bool)))
    (top_k : Int) (result : List RetrievedDocument) : List RetrievedDocument :=
  rerankers.foldl (fun acc rr => rr.1.run rr.2 (filter_docs acc (some top_k))) result

/-- State of the partition loop over the truncated result
(vectorindex.py lines 477-498).  `thumbnail_doc_ids` is a Python `set`
modelled as an insertion-ordered duplicate-free list; `text_thumbnail_docs`
is a dict from thumbnail id to the originating text chunk. -/
structure ThumbState where
  thumbnail_doc_ids : List String
  text_thumbnail_docs : List (String × RetrievedDocument)
  non_thumbnail_docs : List RetrievedDocument
  raw_thumbnail_docs : List RetrievedDocument
deriving Repr

def initThumbState : ThumbState := ⟨[], [], [], []⟩

/-- Python `set.add`. -/
def setAdd (s : List String) (x : String) : List String :=
  if s.contains x then s else s ++ [x]

/-- Python `d[k] = v` on the thumbnail-origin dict (replace or append). -/
def dictInsert (d : List (String × RetrievedDocument)) (k : String)
    (v : RetrievedDocument) : List (String × RetrievedDocument) :=
  alistSet d k v

/-- Python `d[k]` lookup on the thumbnail-origin dict. -/
def dictGet (d : List (String × RetrievedDocument)) (k : String) :
    Option RetrievedDocument :=
  alistGet d k

/-- One iteration of the partition loop (lines 484-498):

    if doc.metadata.get("type") == "thumbnail":
        doc.metadata["type"] = "image"; raw_thumbnail_docs.append(doc); continue
    if "thumbnail_doc_id" in doc.metadata and len(thumbnail_doc_ids) < thumbnail_count:
        thumbnail_doc_ids.add(id); text_thumbnail_docs[id] = doc
    else:
        non_thumbnail_docs.append(doc)
-/
def thumbStep (thumbnail_count : Int) (st : ThumbState)
    (doc : RetrievedDocument) : ThumbState :=
  if mget doc.metadata "type" == some "thumbnail" then
    { st with
        raw_thumbnail_docs :=
          st.raw_thumbnail_docs
            ++ [{ doc with metadata := mset doc.metadata "type" "image" }] }
  else
    match mget doc.metadata "thumbnail_doc_id" with
    | some tid =>
        if (st.thumbnail_doc_ids.length : Int) < thumbnail_count then
          { st with
              thumbnail_doc_ids := setAdd st.thumbnail_doc_ids tid,
              text_thumbnail_docs := dictInsert st.text_thumbnail_docs tid doc }
        else
          { st with non_thumbnail_docs := st.non_thumbnail_docs ++ [doc] }
    | none => { st with non_thumbnail_docs := st.non_thumbnail_docs ++ [doc] }

/-- The whole partition loop over the truncated result list. -/
def thumbPartition (thumbnail_count : Int) (docs : List RetrievedDocument) :
    ThumbState :=
  docs.foldl (thumbStep thumbnail_count) initThumbState

/-- Thumbnail synthesis (lines 511-521): start from the fetched thumbnail
document's fields, overwrite `_id` and `content` with the originating text
chunk's, relabel metadata `type` to `"image"`, merge in the text chunk's
metadata keys that are absent, and carry the text chunk's score. -/
def synthesize (thumbnail_doc : Document) (text_doc : RetrievedDocument) :
    RetrievedDocument :=
  { doc_id := text_doc.doc_id
    content := text_doc.content
    metadata := mergeAbsent (mset thumbnail_doc.metadata "type" "image") text_doc.metadata
    score := text_doc.score }

/-- The `for thumbnail_doc in linked_thumbnail_docs` loop (lines 511-521).
`text_thumbnail_docs[thumbnail_doc.doc_id]` is a bare dict subscript: if the
document store returns a document whose id was never collected, Python raises
`KeyError`, modelled as `Except.error`. -/
def buildAdditional (dict : List (String × RetrievedDocument)) :
    List Document → Except String (List RetrievedDocument)
  | [] => .ok []
  | td :: rest =>
      match dictGet dict td.doc_id with
      | none => .error ("KeyError: " ++ td.doc_id)
      | some text_doc =>
          match buildAdditional dict rest with
          | .ok l => .ok (synthesize td text_doc :: l)
          | .error e => .error e

/-- Final assembly (lines 523-527): synthesized thumbnails, then pass-through
documents; when that is empty, fall back to the raw-thumbnail pool truncated
through `_filter_docs(raw_thumbnail_docs, top_k=thumbnail_count)`. -/
def assembleResult (additional_docs non_thumbnail_docs raw_thumbnail_docs :
    List RetrievedDocument) (thumbnail_count : Int) : List RetrievedDocument :=
  let result := additional_docs ++ non_thumbnail_docs
  if result.isEmpty then
    filter_docs raw_thumbnail_docs (some thumbnail_count)
  else
    result

/-- The whole thumbnail-assembly step over the truncated result
(lines 476-527): partition, batched by-id fetch of the referenced thumbnails
(`list(thumbnail_doc_ids)` in the set's order, modelled as insertion order),
synthesis, assembly. -/
def thumbnailStage (dstore : DocStore) (thumbnail_count : Int)
    (result : List RetrievedDocument) :
    Except String (List RetrievedDocument) :=
  let st := thumbPartition thumbnail_count result
  let linked_thumbnail_docs := dstore.get st.thumbnail_doc_ids
  match buildAdditional st.text_thumbnail_docs linked_thumbnail_docs with
  | .error e => .error e
  | .ok additional_docs =>
      .ok (assembleResult additional_docs st.non_thumbnail_docs
            st.raw_thumbnail_docs thumbnail_count)

/-- `VectorRetrieval.run` (vectorindex.py lines 140-545).

* `top_k` defaults to the configured `self.top_k` when the argument is `None`
  (lines 152-153);
* `do_extend` scales the first-round fetch by `first_round_top_k_mult`
  (lines 302-305);
* the missing-docstore configuration error is raised before any search, in
  every mode (lines 307-311);
* then the mode dispatch, the reranker loop guarded by
  `if self.rerankers and text:` (`text` truthy means a non-empty query
  string), the final `top_k` truncation, and the thumbnail stage. -/
def VectorRetrieval.run (self : VectorRetrieval) (text : String)
    (top_k? : Option Int) (do_extend : Bool) (thumbnail_count : Int)
    (scope : Option (List String)) : Except String (List RetrievedDocument) :=
  let top_k := top_k?.getD self.top_k
  let top_k_first_round :=
    if do_extend then top_k * self.first_round_top_k_mult else top_k
  match self.doc_store with
  | none =>
      .error "doc_store is not provided. Please provide a doc_store to retrieve the documents"
  | some dstore =>
      let result := firstRound self dstore text top_k_first_round scope
      let result :=
        if !self.rerankers.isEmpty && text != "" then
          rerankStage self.rerankers top_k result
        else result
      let result := filter_docs result (some top_k)
      thumbnailStage dstore thumbnail_count result

/-! ### Observers used to state properties of the partition loop -/

/-- The raw-thumbnail test of the partition loop:
`doc.metadata.get("type") == "thumbnail"`. -/
def isRawThumb (d : RetrievedDocument) : Bool :=
  mget d.metadata "type" == some "thumbnail"

/-- The thumbnail back-reference a document contributes to the partition loop:
its `thumbnail_doc_id` metadata entry, unless the document is itself a raw
thumbnail (which the loop sets aside first). -/
def docThumbId (d : RetrievedDocument) : Option String :=
  if isRawThumb d then none else mget d.metadata "thumbnail_doc_id"

/-- The id set the partition loop would collect if the
`len(thumbnail_doc_ids) < thumbnail_count` guard never blocked: every
back-reference id, added in order with set semantics. -/
def foldSetAll (s : List String) (l : List RetrievedDocument) : List String :=
  l.foldl
    (fun acc d => match docThumbId d with
      | some x => setAdd acc x
      | none => acc) s

/-- The last document of `l` whose thumbnail back-reference is `X`. -/
def lastRef (X : String) (l : List RetrievedDocument) : Option RetrievedDocument :=
  (l.filter (fun d => docThumbId d == some X)).getLast?

/-! ### Concrete fixtures for counterexamples and witnesses -/

def docA : Document := ⟨"a", "content a", []⟩
def docB : Document := ⟨"b", "content b", []⟩
def docC : Document := ⟨"c", "content c", []⟩
def docD : Document := ⟨"d", "content d", []⟩

/-- Vector store of Scenario A: ids `[a,b,c]`, scores `[0.9,0.8,0.5]`. -/
def vsScenA : VectorStore :=
  ⟨fun _ _ => ([9/10, 8/10, 1/2], ["a", "b", "c"])⟩

/-- Document store of Scenario A: by-id fetch in request order, full-text
query returning `[c, d]`. -/
def dsScenA : DocStore :=
  ⟨fun ids => if ids = ["a", "b", "c"] then [docA, docB, docC] else [],
   fun _ _ _ => [docC, docD]⟩

def cfgScenA : VectorRetrieval :=
  { vector_store := vsScenA, doc_store := some dsScenA,
    rerankers := [], retrieval_mode := "hybrid" }

/-- Vector store answering ids `[a,b]` with scores `[0.9,0.8]`. -/
def vsAB : VectorStore := ⟨fun _ _ => ([9/10, 8/10], ["a", "b"])⟩

/-- A document store whose `get` honours the contract (it returns exactly the
requested documents) but in *reversed* order — the contract does not promise
request order. -/
def dsRev : DocStore :=
  ⟨fun ids => if ids = ["a", "b"] then [docB, docA] else [],
   fun _ _ _ => []⟩

def cfgRev : VectorRetrieval :=
  { vector_store := vsAB, doc_store := some dsRev,
    rerankers := [], retrieval_mode := "vector" }

/-- A document store whose `get` returns the requested documents in request
order. -/
def dsOrd : DocStore :=
  ⟨fun ids => if ids = ["a", "b"] then [docA, docB] else [],
   fun _ _ _ => []⟩

def cfgOrd : VectorRetrieval :=
  { vector_store := vsAB, doc_store := some dsOrd,
    rerankers := [], retrieval_mode := "vector" }

/-- A raw page-thumbnail document. -/
def docThumbRaw : Document := ⟨"t1", "thumb content", [("type", "thumbnail")]⟩

/-- Document store whose full-text query returns the raw thumbnail. -/
def dsThumbOnly : DocStore :=
  ⟨fun _ => [], fun _ _ _ => [docThumbRaw]⟩

def cfgThumbOnly : VectorRetrieval :=
  { vector_store := ⟨fun _ _ => ([], [])⟩, doc_store := some dsThumbOnly,
    rerankers := [], retrieval_mode := "text" }

/-- A retrieved text chunk carrying a back-reference to thumbnail `img1`. -/
def rdRef : RetrievedDocument :=
  ⟨"txt1", "chunk text", [("thumbnail_doc_id", "img1"), ("page_label", "3")], 7/10⟩

/-- The referenced thumbnail document as stored. -/
def docImg1 : Document :=
  ⟨"img1", "image blob", [("type", "thumbnail"), ("file_name", "f.pdf")]⟩

/-- Document store resolving `img1`. -/
def dsImg : DocStore :=
  ⟨fun ids => if ids = ["img1"] then [docImg1] else [], fun _ _ _ => []⟩

/-- A configuration with no document store at all. -/
def cfgNoStore : VectorRetrieval :=
  { vector_store := vsAB, doc_store := none,
    rerankers := [], retrieval_mode := "hybrid" }

/-- Text-mode configuration over an ordered store, one LLM reranker. -/
def cfgTextMode : VectorRetrieval :=
  { vector_store := vsAB, doc_store := some dsOrd,
    rerankers := [({ top_k := 3, concurrent := true }, fun _ => true)],
    retrieval_mode := "text" }

/-- Two retrieved text chunks referencing the same thumbnail `X`. -/
def rdX1 : RetrievedDocument := ⟨"p1", "chunk one", [("thumbnail_doc_id", "X")], 1/2⟩
def rdX2 : RetrievedDocument := ⟨"p2", "chunk two", [("thumbnail_doc_id", "X")], 1/3⟩

/-- Seven stored documents, for exercising truncation. -/
def docsSeven : List Document :=
  [⟨"d1", "one", []⟩, ⟨"d2", "two", []⟩, ⟨"d3", "three", []⟩, ⟨"d4", "four", []⟩,
   ⟨"d5", "five", []⟩, ⟨"d6", "six", []⟩, ⟨"d7", "seven", []⟩]

/-- Vector store returning seven hits. -/
def vsSeven : VectorStore :=
  ⟨fun _ _ => ([7/10, 6/10, 5/10, 4/10, 3/10, 2/10, 1/10],
               ["d1", "d2", "d3", "d4", "d5", "d6", "d7"])⟩

/-- Document store resolving the seven ids in request order. -/
def dsSeven : DocStore :=
  ⟨fun ids =>
     if ids = ["d1", "d2", "d3", "d4", "d5", "d6", "d7"] then docsSeven else [],
   fun _ _ _ => []⟩

/-- Vector-mode configuration over the seven-hit stores, default `top_k = 5`. -/
def cfgSeven : VectorRetrieval :=
  { vector_store := vsSeven, doc_store := some dsSeven,
    rerankers := [], retrieval_mode := "vector" }

/-- A plain retrieved document with no thumbnail metadata. -/
def rdPlain : RetrievedDocument := ⟨"p0", "plain", [], 1/4⟩

/-- The first five of the seven hits, paired with their scores — what
`run` returns over the seven-hit stores at `top_k = 5`. -/
def resFive : List RetrievedDocument :=
  [⟨"d1", "one", [], 7/10⟩, ⟨"d2", "two", [], 6/10⟩, ⟨"d3", "three", [], 5/10⟩,
   ⟨"d4", "four", [], 4/10⟩, ⟨"d5", "five", [], 3/10⟩]

/-! ### Association-list lemmas -/

@[simp] theorem alistHas_nil (k : String) : alistHas ([] : List (String × α)) k = false := rfl

@[simp] theorem alistGet_nil (k : String) : alistGet ([] : List (String × α)) k = none := rfl

@[simp] theorem alistHas_cons (p : String × α) (rest : List (String × α)) (k : String) :
    alistHas (p :: rest) k = ((p.1 == k) || alistHas rest k) := by
  simp [alistHas]

@[simp] theorem alistGet_cons (p : String × α) (rest : List (String × α)) (k : String) :
    alistGet (p :: rest) k = (bif p.1 == k then some p.2 else alistGet rest k) := by
  cases hp : p.1 == k <;> simp [alistGet, List.find?_cons, hp]

theorem alistHas_iff_isSome (m : List (String × α)) (k : String) :
    alistHas m k = true ↔ (alistGet m k).isSome := by
  induction m with
  | nil => simp
  | cons p rest ih => cases hp : p.1 == k <;> simp [hp, ih]

theorem alistGet_eq_none_of_not_has (m : List (String × α)) (k : String)
    (h : alistHas m k = false) : alistGet m k = none := by
  have h2 := (alistHas_iff_isSome m k).not
  rw [h] at h2
  simp only [Bool.false_eq_true, not_false_iff, true_iff] at h2
  exact Option.not_isSome_iff_eq_none.mp h2

@[simp] theorem alistHas_append (m₁ m₂ : List (String × α)) (k : String) :
    alistHas (m₁ ++ m₂) k = (alistHas m₁ k || alistHas m₂ k) := by
  simp [alistHas, List.any_append]

theorem alistGet_append_left (m₁ m₂ : List (String × α)) (k : String)
    (h : alistHas m₁ k = true) :
    alistGet (m₁ ++ m₂) k = alistGet m₁ k := by
  induction m₁ with
  | nil => simp at h
  | cons p rest ih =>
    cases hp : p.1 == k
    · have hr : alistHas rest k = true := by simpa [hp] using h
      simpa [hp] using ih hr
    · simp [hp]

theorem alistGet_append_of_not_has (m₁ m₂ : List (String × α)) (k : String)
    (h : alistHas m₁ k = false) :
    alistGet (m₁ ++ m₂) k = alistGet m₂ k := by
  induction m₁ with
  | nil => simp
  | cons p rest ih =>
    cases hp : p.1 == k
    · have hr : alistHas rest k = false := by simpa [hp] using h
      simpa [hp] using ih hr
    · simp [hp] at h

theorem alistGet_map_set_of_has (m : List (String × α)) (k : String) (v : α)
    (h : alistHas m k = true) :
    alistGet (m.map (fun p => if p.1 == k then (k, v) else p)) k = some v := by
  induction m with
  | nil => simp at h
  | cons p rest ih =>
    rw [List.map_cons, alistGet_cons]
    cases hp : p.1 == k
    · simp only [Bool.false_eq_true, if_false]
      rw [hp]
      simp only [cond_false]
      exact ih (by simpa [hp] using h)
    · simp

theorem alistGet_set_self (m : List (String × α)) (k : String) (v : α) :
    alistGet (alistSet m k v) k = some v := by
  by_cases h : alistHas m k = true
  · simp only [alistSet, h, if_true]
    exact alistGet_map_set_of_has m k v h
  · have h' : alistHas m k = false := by simpa using h
    simp only [alistSet, h', Bool.false_eq_true, if_false]
    rw [alistGet_append_of_not_has _ _ _ h']
    simp

theorem alistHas_set_self (m : List (String × α)) (k : String) (v : α) :
    alistHas (alistSet m k v) k = true := by
  rw [alistHas_iff_isSome, alistGet_set_self]
  rfl

theorem alistGet_map_set_other (m : List (String × α)) (k k' : String) (v : α)
    (h : (k == k') = false) :
    alistGet (m.map (fun p => if p.1 == k then (k, v) else p)) k' = alistGet m k' := by
  induction m with
  | nil => simp
  | cons p rest ih =>
    rw [List.map_cons, alistGet_cons, alistGet_cons]
    cases hp : p.1 == k
    · simp only [Bool.false_eq_true, if_false]
      rw [ih]
    · simp only [eq_self_iff_true, if_true]
      have hpk : p.1 = k := eq_of_beq hp
      have hpk' : (p.1 == k') = false := by rw [hpk]; exact h
      have hk : ((k, v).1 == k') = false := h
      rw [hpk', hk, ih]
      simp

theorem alistGet_set_other (m : List (String × α)) (k k' : String) (v : α)
    (h : (k == k') = false) :
    alistGet (alistSet m k v) k' = alistGet m k' := by
  by_cases hs : alistHas m k = true
  · simp only [alistSet, hs, if_true]
    exact alistGet_map_set_other m k k' v h
  · have hs' : alistHas m k = false := by simpa using hs
    simp only [alistSet, hs', Bool.false_eq_true, if_false]
    by_cases hk' : alistHas m k' = true
    · exact alistGet_append_left _ _ _ hk'
    · have hk'' : alistHas m k' = false := by simpa using hk'
      rw [alistGet_append_of_not_has _ _ _ hk'', alistGet_eq_none_of_not_has _ _ hk'']
      simp [h]


theorem mergeAbsent_get_of_has (e : Metadata) :
    ∀ (base : Metadata) (k : String), alistHas base k = true →
      alistGet (mergeAbsent base e) k = alistGet base k := by
  induction e with
  | nil => intro base k _; rfl
  | cons p rest ih =>
    intro base k hk
    by_cases hb : alistHas base p.1 = true
    · simp only [mergeAbsent, mhas, hb, if_true]
      exact ih base k hk
    · have hb' : alistHas base p.1 = false := by simpa using hb
      simp only [mergeAbsent, mhas, hb', Bool.false_eq_true, if_false]
      have hk' : alistHas (base ++ [p]) k = true := by
        rw [alistHas_append, hk]; rfl
      rw [ih (base ++ [p]) k hk', alistGet_append_left _ _ _ hk]

theorem mergeAbsent_has_of_has (e : Metadata) (base : Metadata) (k : String)
    (h : alistHas base k = true) :
    alistHas (mergeAbsent base e) k = true := by
  rw [alistHas_iff_isSome, mergeAbsent_get_of_has e base k h]
  rw [alistHas_iff_isSome] at h
  exact h

theorem mergeAbsent_has_right (e : Metadata) :
    ∀ (base : Metadata) (k : String), alistHas e k = true →
      alistHas (mergeAbsent base e) k = true := by
  induction e with
  | nil => intro base k h; simp at h
  | cons p rest ih =>
    intro base k hk
    cases hp : p.1 == k
    · have hr : alistHas rest k = true := by simpa [hp] using hk
      by_cases hb : alistHas base p.1 = true
      · simp only [mergeAbsent, mhas, hb, if_true]
        exact ih base k hr
      · have hb' : alistHas base p.1 = false := by simpa using hb
        simp only [mergeAbsent, mhas, hb', Bool.false_eq_true, if_false]
        exact ih (base ++ [p]) k hr
    · have hpk : p.1 = k := eq_of_beq hp
      by_cases hb : alistHas base p.1 = true
      · simp only [mergeAbsent, mhas, hb, if_true]
        exact mergeAbsent_has_of_has rest base k (hpk ▸ hb)
      · have hb' : alistHas base p.1 = false := by simpa using hb
        simp only [mergeAbsent, mhas, hb', Bool.false_eq_true, if_false]
        apply mergeAbsent_has_of_has
        rw [alistHas_append]
        have h1 : alistHas [p] k = true := by simp [hp]
        rw [h1]
        simp

theorem mergeAbsent_get_new (e : Metadata) :
    ∀ (base : Metadata) (k v : String),
      alistHas base k = false → alistGet e k = some v →
      alistGet (mergeAbsent base e) k = some v := by
  induction e with
  | nil => intro base k v _ hv; simp at hv
  | cons p rest ih =>
    intro base k v hb hv
    cases hp : p.1 == k
    · have hv' : alistGet rest k = some v := by
        simpa [hp] using hv
      by_cases hbp : alistHas base p.1 = true
      · simp only [mergeAbsent, mhas, hbp, if_true]
        exact ih base k v hb hv'
      · have hbp' : alistHas base p.1 = false := by simpa using hbp
        simp only [mergeAbsent, mhas, hbp', Bool.false_eq_true, if_false]
        have hb' : alistHas (base ++ [p]) k = false := by
          rw [alistHas_append, hb]
          simp [hp]
        exact ih (base ++ [p]) k v hb' hv'
    · have hpk : p.1 = k := eq_of_beq hp
      have hbp : alistHas base p.1 = false := hpk ▸ hb
      have hv' : p.2 = v := by
        simpa [hp] using hv
      simp only [mergeAbsent, mhas, hbp, Bool.false_eq_true, if_false]
      have hget : alistGet (base ++ [p]) k = some v := by
        rw [alistGet_append_of_not_has _ _ _ hb]
        simp [hp, hv']
      have hhas : alistHas (base ++ [p]) k = true := by
        rw [alistHas_iff_isSome, hget]; rfl
      rw [mergeAbsent_get_of_has rest _ k hhas, hget]

/-! ### List and pipeline lemmas -/

theorem pyTake_nil (k : Int) : pyTake k ([] : List α) = [] := by
  unfold pyTake; split <;> simp

theorem pyTake_sublist (k : Int) (xs : List α) : (pyTake k xs).Sublist xs := by
  unfold pyTake; split <;> exact List.take_sublist _ _

theorem pyTake_length_le (k : Int) (xs : List α) :
    (pyTake k xs).length ≤ xs.length := by
  exact (pyTake_sublist k xs).length_le

theorem pyTake_nonneg_eq_take (k : Int) (xs : List α) (h : 0 ≤ k) :
    pyTake k xs = xs.take k.toNat := by
  unfold pyTake; rw [if_pos h]

theorem pyTake_pos_ne_nil (k : Int) (xs : List α) (hk : 0 < k) (hxs : xs ≠ []) :
    pyTake k xs ≠ [] := by
  rw [pyTake_nonneg_eq_take k xs (le_of_lt hk)]
  cases xs with
  | nil => exact absurd rfl hxs
  | cons x xs =>
    have : k.toNat ≠ 0 := by omega
    obtain ⟨m, hm⟩ := Nat.exists_eq_succ_of_ne_zero this
    rw [hm]
    simp

theorem filter_docs_nil (t : Option Int) : filter_docs [] t = [] := by
  unfold filter_docs
  split
  · rfl
  · split
    · rfl
    · exact pyTake_nil _

theorem filter_docs_sublist (docs : List RetrievedDocument) (t : Option Int) :
    (filter_docs docs t).Sublist docs := by
  unfold filter_docs
  split
  · exact List.Sublist.refl _
  · split
    · exact List.Sublist.refl _
    · exact pyTake_sublist _ _

theorem filter_docs_length_le (docs : List RetrievedDocument) (t : Option Int) :
    (filter_docs docs t).length ≤ docs.length :=
  (filter_docs_sublist docs t).length_le

theorem filter_docs_pos_eq_take (docs : List RetrievedDocument) (k : Int)
    (hk : 0 < k) : filter_docs docs (some k) = docs.take k.toNat := by
  have hne : (k == 0) = false := by
    have : k ≠ 0 := by omega
    simpa using this
  show (if (k == 0) = true then docs else pyTake k docs) = docs.take k.toNat
  rw [hne]
  simp only [Bool.false_eq_true, if_false]
  exact pyTake_nonneg_eq_take k docs (le_of_lt hk)

theorem filter_docs_pos_length (docs : List RetrievedDocument) (k : Int)
    (hk : 0 < k) : ((filter_docs docs (some k)).length : Int) ≤ k := by
  rw [filter_docs_pos_eq_take docs k hk]
  have h1 : (docs.take k.toNat).length ≤ k.toNat := by
    rw [List.length_take]; omega
  omega

theorem filterZip_foldl (judge : RetrievedDocument → Bool) :
    ∀ (docs : List RetrievedDocument) (acc : List RetrievedDocument),
      ((docs.map judge).zip docs).foldl
        (fun acc p => if p.1 then acc ++ [p.2] else acc) acc
        = acc ++ docs.filter judge := by
  intro docs
  induction docs with
  | nil => intro acc; simp
  | cons d ds ih =>
    intro acc
    cases hj : judge d <;>
      simp [List.filter_cons, hj, ih, List.append_assoc]

theorem filterZip_spec (judge : RetrievedDocument → Bool)
    (docs : List RetrievedDocument) :
    filterZip (docs.map judge) docs = docs.filter judge := by
  simpa using filterZip_foldl judge docs []

theorem llm_run_nil (self : LLMReranking) (judge : RetrievedDocument → Bool) :
    self.run judge [] = [] := by
  unfold LLMReranking.run
  simp [filterZip, pyTake_nil]

theorem rerankStage_nil (rerankers : List (LLMReranking × (RetrievedDocument → Bool)))
    (top_k : Int) : rerankStage rerankers top_k [] = [] := by
  unfold rerankStage
  induction rerankers with
  | nil => rfl
  | cons rr rest ih =>
    rw [List.foldl_cons, filter_docs_nil, llm_run_nil]
    exact ih

theorem zipMk_map_doc_id :
    ∀ (docs : List Document) (scores : List Rat), docs.length = scores.length →
      ((docs.zip scores).map (fun p => mkRetrieved p.1 p.2)).map (fun r => r.doc_id)
        = docs.map (fun d => d.doc_id) := by
  intro docs
  induction docs with
  | nil => intro scores _; simp
  | cons d ds ih =>
    intro scores h
    cases scores with
    | nil => simp at h
    | cons s ss =>
      simp only [List.zip_cons_cons, List.map_cons, List.length_cons] at h ⊢
      rw [ih ss (by omega)]
      rfl

theorem zipMk_map_score :
    ∀ (docs : List Document) (scores : List Rat), docs.length = scores.length →
      ((docs.zip scores).map (fun p => mkRetrieved p.1 p.2)).map (fun r => r.score)
        = scores := by
  intro docs
  induction docs with
  | nil =>
    intro scores h
    cases scores with
    | nil => simp
    | cons s ss => simp at h
  | cons d ds ih =>
    intro scores h
    cases scores with
    | nil => simp at h
    | cons s ss =>
      simp only [List.zip_cons_cons, List.map_cons, List.length_cons] at h ⊢
      rw [ih ss (by omega)]
      rfl

theorem getLast?_cons_ne_none (l : List α) (a : α) : (a :: l).getLast? ≠ none := by
  induction l generalizing a with
  | nil => simp
  | cons b bs ih =>
    rw [List.getLast?_cons_cons]
    exact ih b

theorem setAdd_length_le (s : List String) (x : String) :
    (setAdd s x).length ≤ s.length + 1 := by
  unfold setAdd; split <;> simp

theorem setAdd_length_ge (s : List String) (x : String) :
    s.length ≤ (setAdd s x).length := by
  unfold setAdd; split <;> simp

theorem foldSetAll_length_ge :
    ∀ (l : List RetrievedDocument) (s : List String),
      s.length ≤ (foldSetAll s l).length := by
  intro l
  induction l with
  | nil => intro s; exact le_refl _
  | cons d rest ih =>
    intro s
    unfold foldSetAll
    rw [List.foldl_cons]
    cases hd : docThumbId d with
    | none => simpa [hd] using ih s
    | some x =>
      have h1 := setAdd_length_ge s x
      have h2 := ih (setAdd s x)
      unfold foldSetAll at h2
      simp only [hd]
      omega

/-! ### Counting invariants of the thumbnail partition -/

theorem thumbStep_count (tc : Int) (st : ThumbState) (d : RetrievedDocument) :
    ((thumbStep tc st d).thumbnail_doc_ids.length
        + (thumbStep tc st d).non_thumbnail_docs.length
      ≤ st.thumbnail_doc_ids.length + st.non_thumbnail_docs.length + 1)
    ∧ (thumbStep tc st d).raw_thumbnail_docs.length
        ≤ st.raw_thumbnail_docs.length + 1 := by
  unfold thumbStep
  split
  · simp
  · split
    · rename_i tid heq
      split
      · have hle := setAdd_length_le st.thumbnail_doc_ids tid
        constructor
        · simp only []
          omega
        · simp
      · constructor
        · simp
          omega
        · simp
    · constructor
      · simp
        omega
      · simp

theorem thumbFold_count (tc : Int) :
    ∀ (l : List RetrievedDocument) (st : ThumbState),
      ((l.foldl (thumbStep tc) st).thumbnail_doc_ids.length
          + (l.foldl (thumbStep tc) st).non_thumbnail_docs.length
        ≤ st.thumbnail_doc_ids.length + st.non_thumbnail_docs.length + l.length)
      ∧ (l.foldl (thumbStep tc) st).raw_thumbnail_docs.length
          ≤ st.raw_thumbnail_docs.length + l.length := by
  intro l
  induction l with
  | nil => intro st; simp
  | cons d rest ih =>
    intro st
    rw [List.foldl_cons]
    have h := ih (thumbStep tc st d)
    have g := thumbStep_count tc st d
    simp only [List.length_cons]
    constructor
    · omega
    · omega

/-! ### buildAdditional lemmas -/

theorem buildAdditional_ok_length (dict : List (String × RetrievedDocument)) :
    ∀ (l : List Document) (additional : List RetrievedDocument),
      buildAdditional dict l = .ok additional → additional.length = l.length := by
  intro l
  induction l with
  | nil =>
    intro additional h
    cases h
    rfl
  | cons td rest ih =>
    intro additional h
    unfold buildAdditional at h
    cases hd : dictGet dict td.doc_id with
    | none => rw [hd] at h; cases h
    | some x =>
      rw [hd] at h
      cases hr : buildAdditional dict rest with
      | error e => rw [hr] at h; cases h
      | ok tl =>
        rw [hr] at h
        cases h
        simp [ih tl hr]

theorem buildAdditional_ok_mem (dict : List (String × RetrievedDocument)) :
    ∀ (l : List Document) (additional : List RetrievedDocument),
      buildAdditional dict l = .ok additional →
      ∀ a ∈ additional, ∃ td x, dictGet dict td.doc_id = some x ∧ a = synthesize td x := by
  intro l
  induction l with
  | nil =>
    intro additional h
    cases h
    intro a ha
    simp at ha
  | cons td rest ih =>
    intro additional h
    unfold buildAdditional at h
    cases hd : dictGet dict td.doc_id with
    | none => rw [hd] at h; cases h
    | some x =>
      rw [hd] at h
      cases hr : buildAdditional dict rest with
      | error e => rw [hr] at h; cases h
      | ok tl =>
        rw [hr] at h
        cases h
        intro a ha
        rcases List.mem_cons.mp ha with h1 | h2
        · exact ⟨td, x, hd, h1⟩
        · exact ih tl hr a h2

/-! ### thumbnailStage length bound -/

theorem thumbnailStage_ok_eq (dstore : DocStore) (tc : Int)
    (T : List RetrievedDocument) (additional : List RetrievedDocument)
    (hb : buildAdditional (thumbPartition tc T).text_thumbnail_docs
        (dstore.get (thumbPartition tc T).thumbnail_doc_ids) = .ok additional) :
    thumbnailStage dstore tc T
      = .ok (assembleResult additional (thumbPartition tc T).non_thumbnail_docs
              (thumbPartition tc T).raw_thumbnail_docs tc) := by
  simp only [thumbnailStage]
  rw [hb]

theorem thumbnailStage_error_eq (dstore : DocStore) (tc : Int)
    (T : List RetrievedDocument) (e : String)
    (hb : buildAdditional (thumbPartition tc T).text_thumbnail_docs
        (dstore.get (thumbPartition tc T).thumbnail_doc_ids) = .error e) :
    thumbnailStage dstore tc T = .error e := by
  simp only [thumbnailStage]
  rw [hb]

theorem assembleResult_length (additional non raw : List RetrievedDocument)
    (tc : Int) :
    (assembleResult additional non raw tc).length ≤ additional.length + non.length
    ∨ ((assembleResult additional non raw tc).length ≤ raw.length
        ∧ additional.length + non.length = 0) := by
  simp only [assembleResult]
  split
  · right
    constructor
    · exact filter_docs_length_le _ _
    · rename_i hemp
      have : additional ++ non = [] := List.isEmpty_iff.mp hemp
      have := List.append_eq_nil.mp this
      simp [this.1, this.2]
  · left
    rw [List.length_append]

theorem thumbnailStage_length (dstore : DocStore) (tc : Int)
    (T res : List RetrievedDocument)
    (Hget : ∀ ids, (dstore.get ids).length ≤ ids.length)
    (h : thumbnailStage dstore tc T = .ok res) :
    res.length ≤ T.length := by
  cases hb : buildAdditional (thumbPartition tc T).text_thumbnail_docs
      (dstore.get (thumbPartition tc T).thumbnail_doc_ids) with
  | error e =>
    rw [thumbnailStage_error_eq dstore tc T e hb] at h
    cases h
  | ok additional =>
    rw [thumbnailStage_ok_eq dstore tc T additional hb] at h
    cases h
    have hlen := buildAdditional_ok_length _ _ _ hb
    have hget := Hget (thumbPartition tc T).thumbnail_doc_ids
    have hcount := thumbFold_count tc T initThumbState
    have hids : (thumbPartition tc T).thumbnail_doc_ids.length
        + (thumbPartition tc T).non_thumbnail_docs.length ≤ T.length := by
      simpa [thumbPartition, initThumbState] using hcount.1
    have hraw : (thumbPartition tc T).raw_thumbnail_docs.length ≤ T.length := by
      simpa [thumbPartition, initThumbState] using hcount.2
    rcases assembleResult_length additional (thumbPartition tc T).non_thumbnail_docs
        (thumbPartition tc T).raw_thumbnail_docs tc with h1 | ⟨h2, _⟩
    · omega
    · omega

/-! ### thumbStep branch characterizations -/

theorem dictGet_insert_self (d : List (String × RetrievedDocument)) (k : String)
    (v : RetrievedDocument) : dictGet (dictInsert d k v) k = some v :=
  alistGet_set_self d k v

theorem dictGet_insert_other (d : List (String × RetrievedDocument))
    (k k' : String) (v : RetrievedDocument) (h : (k == k') = false) :
    dictGet (dictInsert d k v) k' = dictGet d k' :=
  alistGet_set_other d k k' v h

theorem thumbStep_raw (tc : Int) (ids : List String)
    (dict : List (String × RetrievedDocument)) (non raw : List RetrievedDocument)
    (d : RetrievedDocument) (h : isRawThumb d = true) :
    thumbStep tc ⟨ids, dict, non, raw⟩ d
      = ⟨ids, dict, non,
          raw ++ [{ d with metadata := mset d.metadata "type" "image" }]⟩ := by
  have h' : (mget d.metadata "type" == some "thumbnail") = true := h
  unfold thumbStep
  simp only [h', eq_self_iff_true, if_true]

theorem thumbStep_ref (tc : Int) (ids : List String)
    (dict : List (String × RetrievedDocument)) (non raw : List RetrievedDocument)
    (d : RetrievedDocument) (tid : String) (h1 : isRawThumb d = false)
    (h2 : mget d.metadata "thumbnail_doc_id" = some tid)
    (h3 : (ids.length : Int) < tc) :
    thumbStep tc ⟨ids, dict, non, raw⟩ d
      = ⟨setAdd ids tid, dictInsert dict tid d, non, raw⟩ := by
  have h1' : (mget d.metadata "type" == some "thumbnail") = false := h1
  unfold thumbStep
  simp only [h1', Bool.false_eq_true, if_false, h2, if_pos h3]

theorem thumbStep_ref_capped (tc : Int) (ids : List String)
    (dict : List (String × RetrievedDocument)) (non raw : List RetrievedDocument)
    (d : RetrievedDocument) (tid : String) (h1 : isRawThumb d = false)
    (h2 : mget d.metadata "thumbnail_doc_id" = some tid)
    (h3 : ¬ (ids.length : Int) < tc) :
    thumbStep tc ⟨ids, dict, non, raw⟩ d = ⟨ids, dict, non ++ [d], raw⟩ := by
  have h1' : (mget d.metadata "type" == some "thumbnail") = false := h1
  unfold thumbStep
  simp only [h1', Bool.false_eq_true, if_false, h2, if_neg h3]

theorem thumbStep_plain (tc : Int) (ids : List String)
    (dict : List (String × RetrievedDocument)) (non raw : List RetrievedDocument)
    (d : RetrievedDocument) (h1 : isRawThumb d = false)
    (h2 : mget d.metadata "thumbnail_doc_id" = none) :
    thumbStep tc ⟨ids, dict, non, raw⟩ d = ⟨ids, dict, non ++ [d], raw⟩ := by
  have h1' : (mget d.metadata "type" == some "thumbnail") = false := h1
  unfold thumbStep
  simp only [h1', Bool.false_eq_true, if_false, h2]

/-! ### lastRef lemmas -/

theorem some_beq_some (a b : String) : (some a == some b) = (a == b) := rfl

theorem none_beq_some (b : String) :
    ((none : Option String) == some b) = false := rfl

theorem lastRef_cons_skip (X : String) (d : RetrievedDocument)
    (rest : List RetrievedDocument) (h : (docThumbId d == some X) = false) :
    lastRef X (d :: rest) = lastRef X rest := by
  unfold lastRef
  rw [List.filter_cons, h]
  simp

theorem lastRef_cons_hit (X : String) (d : RetrievedDocument)
    (rest : List RetrievedDocument) (h : (docThumbId d == some X) = true) :
    lastRef X (d :: rest) = (lastRef X rest).elim (some d) some := by
  unfold lastRef
  rw [List.filter_cons, h]
  simp only [if_true]
  cases hf : rest.filter (fun d => docThumbId d == some X) with
  | nil => simp
  | cons b bs =>
    rw [List.getLast?_cons_cons]
    cases hg : (b :: bs).getLast? with
    | none => exact absurd hg (getLast?_cons_ne_none bs b)
    | some y => simp [hg]

theorem foldSetAll_cons (s : List String) (d : RetrievedDocument)
    (rest : List RetrievedDocument) :
    foldSetAll s (d :: rest)
      = foldSetAll
          (match docThumbId d with
            | some x => setAdd s x
            | none => s) rest := rfl

/-! ### The partition-loop invariant -/

theorem thumbFold_spec (tc : Int) :
    ∀ (l : List RetrievedDocument) (ids : List String)
      (dict : List (String × RetrievedDocument)) (non raw : List RetrievedDocument),
      ((foldSetAll ids l).length : Int) < tc →
      (l.foldl (thumbStep tc) ⟨ids, dict, non, raw⟩).thumbnail_doc_ids
          = foldSetAll ids l
      ∧ (∀ X, dictGet
            (l.foldl (thumbStep tc) ⟨ids, dict, non, raw⟩).text_thumbnail_docs X
            = (lastRef X l).elim (dictGet dict X) some)
      ∧ (l.foldl (thumbStep tc) ⟨ids, dict, non, raw⟩).non_thumbnail_docs
          = non ++ l.filter (fun d => !isRawThumb d && (docThumbId d).isNone) := by
  intro l
  induction l with
  | nil =>
    intro ids dict non raw h
    refine ⟨rfl, ?_, by simp⟩
    intro X
    simp [lastRef]
  | cons d rest ih =>
    intro ids dict non raw h
    rw [List.foldl_cons]
    by_cases hraw : isRawThumb d = true
    · -- raw-thumbnail branch: every buffer the claims read is untouched
      have hdt : docThumbId d = none := by simp [docThumbId, hraw]
      have hfold : foldSetAll ids (d :: rest) = foldSetAll ids rest := by
        rw [foldSetAll_cons, hdt]
      rw [thumbStep_raw tc ids dict non raw d hraw]
      have h' : ((foldSetAll ids rest).length : Int) < tc := by
        rw [hfold] at h; exact h
      obtain ⟨ih1, ih2, ih3⟩ := ih ids dict non
        (raw ++ [{ d with metadata := mset d.metadata "type" "image" }]) h'
      refine ⟨by rw [ih1, hfold], ?_, ?_⟩
      · intro X
        rw [ih2 X, lastRef_cons_skip X d rest (by rw [hdt]; rfl)]
      · rw [ih3, List.filter_cons]
        simp [hraw]
    · have hraw' : isRawThumb d = false := by simpa using hraw
      cases htid : mget d.metadata "thumbnail_doc_id" with
      | some tid =>
        have hdt : docThumbId d = some tid := by simp [docThumbId, hraw', htid]
        have hfold : foldSetAll ids (d :: rest)
            = foldSetAll (setAdd ids tid) rest := by
          rw [foldSetAll_cons, hdt]
        have hguard : (ids.length : Int) < tc := by
          have g1 := setAdd_length_ge ids tid
          have g2 := foldSetAll_length_ge rest (setAdd ids tid)
          rw [hfold] at h
          omega
        rw [thumbStep_ref tc ids dict non raw d tid hraw' htid hguard]
        have h' : ((foldSetAll (setAdd ids tid) rest).length : Int) < tc := by
          rw [hfold] at h; exact h
        obtain ⟨ih1, ih2, ih3⟩ := ih (setAdd ids tid) (dictInsert dict tid d)
          non raw h'
        refine ⟨by rw [ih1, hfold], ?_, ?_⟩
        · intro X
          rw [ih2 X]
          cases hx : tid == X with
          | true =>
            have hx' : tid = X := eq_of_beq hx
            have hhit : (docThumbId d == some X) = true := by
              rw [hdt, some_beq_some, hx]
            rw [lastRef_cons_hit X d rest hhit]
            have hins : dictGet (dictInsert dict tid d) X = some d := by
              rw [← hx']
              exact dictGet_insert_self dict tid d
            cases hlr : lastRef X rest with
            | none => simp [hins]
            | some y => simp
          | false =>
            have hskip : (docThumbId d == some X) = false := by
              rw [hdt, some_beq_some, hx]
            rw [lastRef_cons_skip X d rest hskip,
              dictGet_insert_other dict tid X d hx]
        · rw [ih3, List.filter_cons]
          simp [hdt]
      | none =>
        have hdt : docThumbId d = none := by simp [docThumbId, hraw', htid]
        have hfold : foldSetAll ids (d :: rest) = foldSetAll ids rest := by
          rw [foldSetAll_cons, hdt]
        rw [thumbStep_plain tc ids dict non raw d hraw' htid]
        have h' : ((foldSetAll ids rest).length : Int) < tc := by
          rw [hfold] at h; exact h
        obtain ⟨ih1, ih2, ih3⟩ := ih ids dict (non ++ [d]) raw h'
        refine ⟨by rw [ih1, hfold], ?_, ?_⟩
        · intro X
          rw [ih2 X, lastRef_cons_skip X d rest (by rw [hdt]; rfl)]
        · rw [ih3, List.filter_cons]
          simp [hraw', hdt, List.append_assoc]

/-! ### Claim theorems -/

/-- C1 (code bug): in hybrid mode the spec requires the pre-rerank merged
list to start with exactly those text-search hits whose `doc_id` is not among
the vector-search ids, so that no `doc_id` appears with both a sentinel and a
non-sentinel score.  The source's dedup filter `if doc not in vs_ids` compares
a `Document` value against id strings and therefore never excludes anything:
on Scenario A (vector ids `[a,b,c]`, scores `[0.9,0.8,0.5]`, text hits
`[c,d]`) the code emits `[c,d,a,b,c]` with scores `[-1,0.9,0.8,0.5]` — the
id `c` appears with both the sentinel `-1` and the vector score `0.5`,
and the order is not the claimed `[d,a,b,c]`. -/
theorem hybrid_merge_scenarioA_duplicate :
    (VectorRetrieval.run cfgScenA "q" (some 5) false 3 (some ["s"])).map
        (fun l => l.map (fun r => (r.doc_id, r.score)))
      = Except.ok
          [("c", -1), ("d", -1), ("a", 9/10), ("b", 8/10), ("c", 1/2)] := by
  rfl

/-- C2 (counterexample): vector mode only zips `doc_store.get(ids)` with the
scores positionally.  With a document store that returns exactly the requested
documents but in reversed order — which its contract allows — the first
returned document is `b`, not the document of the first vector id `a`, yet it
carries `a`'s score `0.9`: the claimed id/score pairing fails. -/
theorem vector_mode_pairing_counterexample :
    (VectorRetrieval.run cfgRev "q" (some 5) false 3 none).map
        (fun l => l.map (fun r => (r.doc_id, r.score)))
      = Except.ok [("b", 9/10), ("a", 8/10)]
    ∧ (vsAB.query 5 none).2 = ["a", "b"]
    ∧ ("b" : String) ≠ "a" := by
  exact ⟨rfl, rfl, by decide⟩

/-- C2 (amended): in vector mode the candidate list zips the documents
returned by the document store's `get` with the vector scores positionally;
*when `get` returns the documents in request order*, the i-th candidate is the
document whose id is the i-th vector-store id, carrying the i-th score. -/
theorem vector_mode_pairing_of_ordered_get (self : VectorRetrieval)
    (dstore : DocStore) (text : String) (k : Int) (scope : Option (List String))
    (scores : List Rat) (ids : List String) (docs : List Document)
    (hmode : self.retrieval_mode = "vector")
    (hq : self.vector_store.query k scope = (scores, ids))
    (hget : dstore.get ids = docs)
    (hids : docs.map (fun d => d.doc_id) = ids)
    (hlen : docs.length = scores.length) :
    (firstRound self dstore text k scope).map (fun r => r.doc_id) = ids
    ∧ (firstRound self dstore text k scope).map (fun r => r.score) = scores := by
  have hvec : (("vector" : String) == "vector") = true := by decide
  have hfr : firstRound self dstore text k scope
      = ((dstore.get ids).zip scores).map (fun p => mkRetrieved p.1 p.2) := by
    simp only [firstRound, hmode, hvec, if_true, hq]
  constructor
  · rw [hfr, hget, zipMk_map_doc_id docs scores hlen, hids]
  · rw [hfr, hget, zipMk_map_score docs scores hlen]

/-- C2 (witness): the amended pairing at a concrete ordered store. -/
theorem vector_mode_pairing_witness :
    (firstRound cfgOrd dsOrd "q" 5 none).map (fun r => r.doc_id) = ["a", "b"]
    ∧ (firstRound cfgOrd dsOrd "q" 5 none).map (fun r => r.score)
        = [9/10, 8/10] :=
  vector_mode_pairing_of_ordered_get cfgOrd dsOrd "q" 5 none [9/10, 8/10]
    ["a", "b"] [docA, docB] rfl rfl rfl (by decide) (by decide)

/-- C3 (counterexample): at positive `top_k = 5` with `thumbnail_count = 0`,
a result consisting of one raw thumbnail makes the fallback path activate,
and `_filter_docs(raw, top_k=0)` performs no truncation: the returned length
is `1`, exceeding `thumbnail_count = 0` — the claimed fallback bound
`length ≤ thumbnail_count` fails. -/
theorem topk_bound_fallback_counterexample :
    (VectorRetrieval.run cfgThumbOnly "q" (some 5) false 0 (some ["s"])).map
        (fun l => l.length) = Except.ok 1
    ∧ ¬ ((1 : Int) ≤ 0) := by
  exact ⟨rfl, by decide⟩

/-- C3 (amended): for positive `top_k = K` every successful result has length
at most `K` — fallback included — provided the document store's `get` returns
at most one document per requested id; the fallback is additionally bounded by
`thumbnail_count` only when `thumbnail_count` is positive; and the `top_k`
truncation keeps the first `K` elements in their current order (a `take`,
never a re-sort). -/
theorem topk_truncation_bound :
    (∀ (docs : List RetrievedDocument) (k : Int), 0 < k →
        filter_docs docs (some k) = docs.take k.toNat
        ∧ ((filter_docs docs (some k)).length : Int) ≤ k)
    ∧ (∀ (additional non raw : List RetrievedDocument) (tc : Int), 0 < tc →
        additional ++ non = [] →
        ((assembleResult additional non raw tc).length : Int) ≤ tc)
    ∧ (∀ (self : VectorRetrieval) (dstore : DocStore) (text : String) (K : Int)
        (do_extend : Bool) (tc : Int) (scope : Option (List String))
        (res : List RetrievedDocument),
        self.doc_store = some dstore → 0 < K →
        (∀ ids, (dstore.get ids).length ≤ ids.length) →
        self.run text (some K) do_extend tc scope = .ok res →
        ((res.length : Int) ≤ K)) := by
  refine ⟨?_, ?_, ?_⟩
  · intro docs k hk
    exact ⟨filter_docs_pos_eq_take docs k hk, filter_docs_pos_length docs k hk⟩
  · intro additional non raw tc htc happ
    simp only [assembleResult, happ, List.isEmpty_nil, if_true]
    exact filter_docs_pos_length raw tc htc
  · intro self dstore text K de tc scope res hds hK Hget hrun
    simp only [VectorRetrieval.run, hds, Option.getD_some] at hrun
    have h1 := thumbnailStage_length dstore tc _ res Hget hrun
    have h1' := Int.ofNat_le.mpr h1
    exact le_trans h1' (filter_docs_pos_length _ K hK)

/-- C3 (witness): the amended bounds at concrete inputs. -/
theorem topk_truncation_bound_witness :
    (filter_docs [rdPlain] (some 2) = [rdPlain].take 2
      ∧ ((filter_docs [rdPlain] (some 2)).length : Int) ≤ 2)
    ∧ ((assembleResult [] [] [rdPlain] 3).length : Int) ≤ 3
    ∧ ((resFive.length : Int) ≤ 5) := by
  refine ⟨topk_truncation_bound.1 [rdPlain] 2 (by decide), ?_, ?_⟩
  · exact topk_truncation_bound.2.1 [] [] [rdPlain] 3 (by decide) rfl
  · refine topk_truncation_bound.2.2 cfgSeven dsSeven "q" 5 false 3 none resFive
      rfl (by decide) ?_ (by rfl)
    intro ids
    by_cases h : ids = ["d1", "d2", "d3", "d4", "d5", "d6", "d7"]
    · subst h; decide
    · simp [dsSeven, h]

/-- C4 (counterexample): with `top_k = 0` configured on the reranker, a list
whose documents are all judged irrelevant yields an *empty* output even though
the input is non-empty — `documents[:0]` is empty, so the claimed consequence
"non-empty whenever L is non-empty" fails. -/
theorem llm_fallback_counterexample :
    LLMReranking.run { top_k := 0, concurrent := true } (fun _ => false)
        [rdPlain] = []
    ∧ [rdPlain] ≠ ([] : List RetrievedDocument) := by
  exact ⟨rfl, by simp⟩

/-- C4 (amended): when zero documents are judged relevant, the reranker
returns `documents[:top_k]` — the first `top_k` elements of the input in
original order — and this output is non-empty whenever the input is non-empty
*and `top_k` is positive* (as it is at the default `top_k = 3`). -/
theorem llm_fallback_topk (self : LLMReranking)
    (judge : RetrievedDocument → Bool) (docs : List RetrievedDocument)
    (h : ∀ d ∈ docs, judge d = false) :
    self.run judge docs = pyTake self.top_k docs
    ∧ (0 < self.top_k → docs ≠ [] → self.run judge docs ≠ []) := by
  have hfil : docs.filter judge = [] := by
    rw [List.filter_eq_nil_iff]
    intro a ha
    simp [h a ha]
  have hrun : self.run judge docs = pyTake self.top_k docs := by
    simp only [LLMReranking.run, ite_self, filterZip_spec, hfil]
    rfl
  refine ⟨hrun, fun hk hne => ?_⟩
  rw [hrun]
  exact pyTake_pos_ne_nil _ _ hk hne

/-- C4 (witness): the amended fallback at the default `top_k = 3`. -/
theorem llm_fallback_topk_witness :
    LLMReranking.run { top_k := 3, concurrent := true } (fun _ => false)
        [rdPlain] = pyTake 3 [rdPlain]
    ∧ LLMReranking.run { top_k := 3, concurrent := true } (fun _ => false)
        [rdPlain] ≠ [] := by
  have h := llm_fallback_topk { top_k := 3, concurrent := true }
    (fun _ => false) [rdPlain] (by intro d _; rfl)
  exact ⟨h.1, h.2 (by decide) (by simp)⟩

/-- C5 (confirmed): the judgments are re-associated positionally with the
submitted documents (the zip-filter equals `List.filter` over the input), the
reranker's output is a subsequence of its input in input order, and the
concurrent and sequential configurations produce identical output. -/
theorem llm_rerank_order_preservation (self : LLMReranking)
    (judge : RetrievedDocument → Bool) (docs : List RetrievedDocument) :
    filterZip (docs.map judge) docs = docs.filter judge
    ∧ (self.run judge docs).Sublist docs
    ∧ ({ self with concurrent := true } : LLMReranking).run judge docs
        = ({ self with concurrent := false } : LLMReranking).run judge docs := by
  refine ⟨filterZip_spec judge docs, ?_, rfl⟩
  simp only [LLMReranking.run, ite_self, filterZip_spec]
  split
  · exact pyTake_sublist _ _
  · exact List.filter_sublist _

/-- C6 (confirmed): when the thumbnail loop succeeds and its combined result
is non-empty, the final result is the synthesized-thumbnail documents followed
by the unchanged pass-through documents; every synthesized document is
`synthesize` of a fetched thumbnail and its remembered originating text chunk,
and `synthesize` carries the text chunk's id, content and score, relabels
metadata `type` to `"image"`, keeps every key of the text chunk's metadata,
and copies the value of every text-chunk key absent from the (relabelled)
thumbnail metadata. -/
theorem thumbnail_synthesis_spec (dstore : DocStore) (tc : Int)
    (result additional : List RetrievedDocument)
    (hb : buildAdditional (thumbPartition tc result).text_thumbnail_docs
        (dstore.get (thumbPartition tc result).thumbnail_doc_ids)
        = .ok additional)
    (hne : additional ++ (thumbPartition tc result).non_thumbnail_docs ≠ []) :
    thumbnailStage dstore tc result
      = .ok (additional ++ (thumbPartition tc result).non_thumbnail_docs)
    ∧ (∀ a ∈ additional, ∃ td x,
        dictGet (thumbPartition tc result).text_thumbnail_docs td.doc_id
            = some x
        ∧ a = synthesize td x)
    ∧ (∀ (td : Document) (x : RetrievedDocument),
        (synthesize td x).doc_id = x.doc_id
        ∧ (synthesize td x).content = x.content
        ∧ (synthesize td x).score = x.score
        ∧ mget (synthesize td x).metadata "type" = some "image"
        ∧ (∀ k, mhas x.metadata k = true →
            mhas (synthesize td x).metadata k = true)
        ∧ (∀ k v, mhas (mset td.metadata "type" "image") k = false →
            mget x.metadata k = some v →
            mget (synthesize td x).metadata k = some v)) := by
  refine ⟨?_, buildAdditional_ok_mem _ _ _ hb, ?_⟩
  · rw [thumbnailStage_ok_eq dstore tc result additional hb]
    have hemp : (additional
        ++ (thumbPartition tc result).non_thumbnail_docs).isEmpty = false := by
      cases hli : (additional
          ++ (thumbPartition tc result).non_thumbnail_docs).isEmpty
      · rfl
      · exact absurd (List.isEmpty_iff.mp hli) hne
    simp only [assembleResult, hemp, Bool.false_eq_true, if_false]
  · intro td x
    refine ⟨rfl, rfl, rfl, ?_, ?_, ?_⟩
    · show alistGet (mergeAbsent (alistSet td.metadata "type" "image")
        x.metadata) "type" = some "image"
      rw [mergeAbsent_get_of_has x.metadata _ _ (alistHas_set_self _ _ _)]
      exact alistGet_set_self _ _ _
    · intro k hk
      exact mergeAbsent_has_right x.metadata _ k hk
    · intro k v hk hv
      exact mergeAbsent_get_new x.metadata _ k v hk hv

/-- C6 (witness): Scenario C at a concrete store — the single synthesized
entry carries the text chunk's id, content and score with the thumbnail's
metadata relabelled to `"image"` and the text metadata merged in. -/
theorem thumbnail_synthesis_witness :
    thumbnailStage dsImg 3 [rdRef] = .ok [synthesize docImg1 rdRef]
    ∧ synthesize docImg1 rdRef
        = ⟨"txt1", "chunk text",
            [("type", "image"), ("file_name", "f.pdf"),
             ("thumbnail_doc_id", "img1"), ("page_label", "3")], 7/10⟩ := by
  have h := thumbnail_synthesis_spec dsImg 3 [rdRef] [synthesize docImg1 rdRef]
    (by rfl) (by simp)
  exact ⟨h.1, rfl⟩

/-- C7 (confirmed): with no document store configured, `run` fails with the
configuration error in every retrieval mode and for every argument
combination, before consulting any store (the result does not depend on the
vector store, the mode, the scope, or any other input). -/
theorem missing_docstore_error (self : VectorRetrieval)
    (h : self.doc_store = none) (text : String) (top_k? : Option Int)
    (do_extend : Bool) (tc : Int) (scope : Option (List String)) :
    self.run text top_k? do_extend tc scope
      = .error "doc_store is not provided. Please provide a doc_store to retrieve the documents" := by
  unfold VectorRetrieval.run
  rw [h]

/-- C7 (witness): the configuration error at a concrete storeless pipeline. -/
theorem missing_docstore_error_witness :
    VectorRetrieval.run cfgNoStore "q" none false 3 none
      = .error "doc_store is not provided. Please provide a doc_store to retrieve the documents" :=
  missing_docstore_error cfgNoStore rfl "q" none false 3 none

/-- `firstRound` in text mode with a falsy scope consults nothing and
produces the empty candidate list. -/
theorem firstRound_text_empty (self : VectorRetrieval) (dstore : DocStore)
    (text : String) (k : Int) (scope : Option (List String))
    (hmode : self.retrieval_mode = "text")
    (hscope : scopeTruthy scope = false) :
    firstRound self dstore text k scope = [] := by
  have h1 : (("text" : String) == "vector") = false := by decide
  have h2 : (("text" : String) == "text") = true := by decide
  simp only [firstRound, hmode, h1, Bool.false_eq_true, if_false, h2, if_true,
    hscope, List.map_nil]

/-- The thumbnail stage maps an empty truncated result to an empty output,
given that fetching an empty id batch returns no documents. -/
theorem thumbnailStage_nil (dstore : DocStore) (tc : Int)
    (hget : dstore.get [] = []) : thumbnailStage dstore tc [] = .ok [] := by
  have h2 : dstore.get (thumbPartition tc []).thumbnail_doc_ids = [] := hget
  simp only [thumbnailStage]
  rw [h2]
  simp [buildAdditional, assembleResult, filter_docs_nil, thumbPartition,
    initThumbState]

/-- C8 (confirmed): in text mode with an empty or absent scope, `run` returns
the empty sequence without error: the document-store full-text query is never
consulted (the conclusion holds for every `dstore.query`), the reranker loop
and truncation preserve emptiness, and the thumbnail stage maps the empty list
to the empty list (given the `get`-on-empty-batch contract). -/
theorem text_mode_empty_scope_empty (self : VectorRetrieval) (dstore : DocStore)
    (text : String) (top_k? : Option Int) (do_extend : Bool) (tc : Int)
    (scope : Option (List String))
    (hmode : self.retrieval_mode = "text")
    (hds : self.doc_store = some dstore)
    (hscope : scopeTruthy scope = false)
    (hget : dstore.get [] = []) :
    self.run text top_k? do_extend tc scope = .ok [] := by
  simp only [VectorRetrieval.run, hds]
  rw [firstRound_text_empty self dstore text _ scope hmode hscope,
    rerankStage_nil, ite_self, filter_docs_nil]
  exact thumbnailStage_nil dstore tc hget

/-- C8 (witness): a concrete text-mode pipeline (with an LLM reranker
configured) over an explicitly empty scope returns `[]`. -/
theorem text_mode_empty_scope_witness :
    VectorRetrieval.run cfgTextMode "q" none false 3 (some []) = .ok [] :=
  text_mode_empty_scope_empty cfgTextMode dsOrd "q" none false 3 (some [])
    rfl rfl rfl rfl

/-- C9 (counterexample): with `thumbnail_count = 1` and two documents both
referencing thumbnail `X`, the *first* document is remembered in the
thumbnail-origin map (it is not overwritten by the last) and the second is
routed to the pass-through group rather than silently dropped — the cap test
`len(thumbnail_doc_ids) < thumbnail_count` fails once the id is collected. -/
theorem thumbnail_dup_ref_counterexample :
    (thumbPartition 1 [rdX1, rdX2]).text_thumbnail_docs = [("X", rdX1)]
    ∧ (thumbPartition 1 [rdX1, rdX2]).non_thumbnail_docs = [rdX2]
    ∧ rdX1 ≠ rdX2 := by
  exact ⟨rfl, rfl, by decide⟩

/-- C9 (amended): provided the documents reference fewer distinct thumbnail
ids than `thumbnail_count` (so the cap never blocks), the thumbnail-origin
map remembers, for every id `X`, exactly the *last* document referencing `X`
(earlier ones are overwritten), and the pass-through group consists exactly of
the documents that are neither raw thumbnails nor referencing — so earlier
duplicate referencers appear in neither group.  Once the cap is reached,
a referencing document is instead passed through unchanged (see the
counterexample). -/
theorem thumbnail_dup_ref_overwrite (tc : Int) (l : List RetrievedDocument)
    (h : ((foldSetAll [] l).length : Int) < tc) :
    (∀ X, dictGet (thumbPartition tc l).text_thumbnail_docs X = lastRef X l)
    ∧ (thumbPartition tc l).non_thumbnail_docs
        = l.filter (fun d => !isRawThumb d && (docThumbId d).isNone) := by
  have hs := thumbFold_spec tc l [] [] [] [] h
  refine ⟨?_, hs.2.2⟩
  intro X
  have h2 := hs.2.1 X
  cases hlr : lastRef X l with
  | none => rw [hlr] at h2; exact h2
  | some y => rw [hlr] at h2; exact h2

/-- C9 (witness): with a cap of 3 and two documents referencing `X`, the map
holds the last (`rdX2`) and the pass-through group is empty. -/
theorem thumbnail_dup_ref_witness :
    dictGet (thumbPartition 3 [rdX1, rdX2]).text_thumbnail_docs "X"
        = lastRef "X" [rdX1, rdX2]
    ∧ lastRef "X" [rdX1, rdX2] = some rdX2
    ∧ (thumbPartition 3 [rdX1, rdX2]).non_thumbnail_docs
        = List.filter (fun d => !isRawThumb d && (docThumbId d).isNone)
            [rdX1, rdX2] := by
  have h := thumbnail_dup_ref_overwrite 3 [rdX1, rdX2] (by decide)
  exact ⟨h.1 "X", rfl, h.2⟩

/-- C10 (confirmed): `_filter_docs` only truncates a truthy `top_k`, so an
explicit `top_k = 0` performs no truncation anywhere in `run` (unlike `None`,
which is replaced by the configured default, itself defaulting to 5): over a
seven-hit store with configured default 5, `run` at `top_k = some 0` returns
all seven candidates rather than an empty (or truncated) list. -/
theorem topk_zero_no_truncation :
    (∀ docs : List RetrievedDocument, filter_docs docs (some 0) = docs)
    ∧ (∀ (self : VectorRetrieval) (text : String) (do_extend : Bool) (tc : Int)
        (scope : Option (List String)),
        self.run text none do_extend tc scope
          = self.run text (some self.top_k) do_extend tc scope)
    ∧ ({ vector_store := vsSeven, doc_store := some dsSeven }
        : VectorRetrieval).top_k = 5
    ∧ (VectorRetrieval.run cfgSeven "q" (some 0) false 3 none).map
        (fun l => l.length) = Except.ok 7 := by
  exact ⟨fun docs => rfl, fun self text de tc scope => rfl, rfl, rfl⟩

end Kotaemon
